import Mathlib

/-!
Verification development for the chat-driven to-do service.

The embedding mirrors two source modules:
* `backend_main.py` — the rule-based agent `run_agent` and the `chat`
  endpoint (conversation recording and tool-call dispatch);
* `mcp_tools_full.py` — the `TaskManager` task store
  (`add_task`, `list_tasks`, `complete_task`, `update_task`, `delete_task`).

Strings are embedded as `List Char`; the Python string operations used by
the source (`lower`, `replace`, `strip`, the `in` containment test) are
defined below with Python's semantics on ASCII input.
-/

namespace Todo

/-- Python `needle in haystack` helper: does `s` start with `pat`? -/
def startsWithL : List Char → List Char → Bool
  | [], _ => true
  | _ :: _, [] => false
  | p :: ps, c :: cs => p == c && startsWithL ps cs

/-- Python substring containment `pat in s` (true for the empty pattern). -/
def hasSub (pat : List Char) : List Char → Bool
  | [] => startsWithL pat []
  | c :: cs => startsWithL pat (c :: cs) || hasSub pat cs

/-- Worker for `replaceL`.  The fuel bounds the number of characters
still to be scanned; every step either consumes the head character or,
on a match of the non-empty pattern, at least one character, so fuel
equal to the length of the scanned list never runs out. -/
def replaceGo (pat repl : List Char) : Nat → List Char → List Char
  | 0, s => s
  | _ + 1, [] => []
  | fuel + 1, c :: cs =>
    if startsWithL pat (c :: cs) then
      repl ++ replaceGo pat repl fuel ((c :: cs).drop pat.length)
    else
      c :: replaceGo pat repl fuel cs

/-- Python `s.replace(pat, repl)`: left-to-right, non-overlapping
replacement of every occurrence of `pat`.  The source only ever calls it
with non-empty literal patterns; the empty pattern is returned unchanged. -/
def replaceL (pat repl : List Char) (s : List Char) : List Char :=
  if pat = [] then s else replaceGo pat repl s.length s

/-- ASCII whitespace recognized by Python `str.strip()`. -/
def pyIsSpace (c : Char) : Bool :=
  c == ' ' || c == '\t' || c == '\n' || c == '\r' || c == '\x0b' || c == '\x0c'

/-- Python `s.strip()`: drop whitespace from both ends. -/
def stripL (s : List Char) : List Char :=
  ((s.dropWhile pyIsSpace).reverse.dropWhile pyIsSpace).reverse

/-- Python `s.lower()` on ASCII text, as used on `message` in `run_agent`. -/
def lowerL (s : List Char) : List Char :=
  s.map Char.toLower

/-- The six intents of the rule-based classifier (spec §4.2); `unknown`
is the fall-through branch of `run_agent`. -/
inductive Intent
  | addTask
  | listTasks
  | completeTask
  | updateTask
  | deleteTask
  | unknown
deriving DecidableEq, Repr

/-- A recorded tool invocation, `ToolCall(name, arguments)` in
`backend_main.py`; one constructor per tool name, fields are the
entries of the `arguments` dict built by `run_agent`. -/
inductive ToolCall
  | addTaskC (user_id : List Char) (description : List Char)
  | listTasksC (user_id : List Char)
  | completeTaskC (user_id : List Char) (task_id : Nat)
  | updateTaskC (user_id : List Char) (task_id : Nat)
  | deleteTaskC (user_id : List Char) (task_id : Nat)
deriving DecidableEq, Repr

/-- Description extraction in the AddTask branch of `run_agent`
(backend_main.py lines 56-58): case-sensitive `replace` of the literals
"add", "create", "task" applied to the ORIGINAL message, then `strip`;
the placeholder "a new task" when the result is empty. -/
def addDesc (message : List Char) : List Char :=
  let d := stripL (replaceL "task".data []
                    (replaceL "create".data []
                      (replaceL "add".data [] message)))
  if d = [] then "a new task".data else d

/-- The intent decided by the `if`/`elif` chain of `run_agent`
(backend_main.py lines 54-87): each keyword test runs on the lowercased
message, evaluated in the source's fixed priority order. -/
def classifyIntent (message : List Char) : Intent :=
  let um := lowerL message
  if hasSub "add".data um || hasSub "create".data um then .addTask
  else if hasSub "list".data um || hasSub "show".data um then .listTasks
  else if hasSub "complete".data um || hasSub "done".data um then .completeTask
  else if hasSub "update".data um || hasSub "change".data um then .updateTask
  else if hasSub "delete".data um || hasSub "remove".data um then .deleteTask
  else .unknown

/-- `run_agent(user_id, conversation, message)` from backend_main.py:
returns the response text and the list of tool calls.  The
`conversation` argument is unused by the source body and omitted. -/
def runAgent (user_id message : List Char) : List Char × List ToolCall :=
  let um := lowerL message
  if hasSub "add".data um || hasSub "create".data um then
    let d := addDesc message
    ("I've added the task '".data ++ d ++ "' to your list.".data,
     [.addTaskC user_id d])
  else if hasSub "list".data um || hasSub "show".data um then
    ("Here are your tasks for user ".data ++ user_id ++ ".".data,
     [.listTasksC user_id])
  else if hasSub "complete".data um || hasSub "done".data um then
    ("I've marked the task as completed.".data, [.completeTaskC user_id 1])
  else if hasSub "update".data um || hasSub "change".data um then
    ("I've updated the task as requested.".data, [.updateTaskC user_id 1])
  else if hasSub "delete".data um || hasSub "remove".data um then
    ("I've deleted the task.".data, [.deleteTaskC user_id 1])
  else
    ("I received your message: '".data ++ message
       ++ "'. How can I help you with your tasks?".data, [])

/-- Role of a conversation turn (`Message.role` in backend_main.py). -/
inductive Role
  | user
  | assistant
deriving DecidableEq, Repr

/-- A conversation turn: one row of the `Message` table written by the
`chat` endpoint (conversation id and timestamp omitted; they do not
enter any claim). -/
structure Turn where
  user_id : List Char
  role : Role
  content : List Char
deriving DecidableEq, Repr

/-- The `chat` endpoint of backend_main.py (lines 162-240), abstracted
over the tool executor `exec`: it appends the user turn, runs
`run_agent`, appends the assistant turn, then executes each tool call
in order through the name-dispatch loop (lines 209-230), DISCARDING each
call's result, and returns the response text with the tool-call list.
`σ` is the store state threaded through the executor and `ρ` the per-call
result type; the executor models the Task Store operations, which catch
their own failures and return a result instead of raising. -/
def chatEndpoint {σ ρ : Type} (exec : ToolCall → σ → ρ × σ)
    (user_id message : List Char) (turns : List Turn) (store : σ) :
    (List Char × List ToolCall) × List Turn × σ :=
  let rc := runAgent user_id message
  let turns1 := turns ++ [⟨user_id, Role.user, message⟩]
  let turns2 := turns1 ++ [⟨user_id, Role.assistant, rc.1⟩]
  let store2 := rc.2.foldl (fun s c => (exec c s).2) store
  ((rc.1, rc.2), turns2, store2)

/-- Number of Task Store operations the dispatch loop of `chat`
(backend_main.py lines 209-230) performs for one tool call: every
constructor's name matches exactly one `elif` branch, which awaits
exactly one store operation. -/
def dispatchCount : ToolCall → Nat
  | .addTaskC _ _ => 1
  | .listTasksC _ => 1
  | .completeTaskC _ _ => 1
  | .updateTaskC _ _ => 1
  | .deleteTaskC _ _ => 1

/-- Total number of Task Store operations `chat` performs for a
tool-call list. -/
def opsInvoked (calls : List ToolCall) : Nat :=
  (calls.map dispatchCount).sum

/-! ## Task Store (`TaskManager` of mcp_tools_full.py) -/

/-- One row of the `Task` table (mcp_tools_full.py lines 19-26).
Timestamps are abstract instants (`Nat`): each mutating operation
receives the current instant as an explicit `now` argument, standing
for `datetime.utcnow()`. -/
structure Task where
  id : Nat
  user_id : String
  title : String
  description : Option String
  completed : Bool
  created_at : Nat
  updated_at : Nat
deriving DecidableEq, Repr

/-- Modelled from the spec: the integer primary key is assigned by the
backing database's autoincrement on insert, which is outside the
repository's Python source.  Per spec §3, ids are store-wide unique and
assigned monotonically increasing by the store on creation, never
reused, so the store state carries the allocator as a counter
`nextId` that only ever grows. -/
structure StoreState where
  tasks : List Task
  nextId : Nat
deriving DecidableEq, Repr

/-- The empty store, as created on startup; autoincrement ids start at 1. -/
def store0 : StoreState := ⟨[], 1⟩

/-- `session.get(Task, task_id)`: primary-key lookup, across the whole
table regardless of owner. -/
def findTask (st : StoreState) (task_id : Nat) : Option Task :=
  st.tasks.find? (fun t => t.id == task_id)

/-- The two failure kinds of `complete_task` / `update_task` /
`delete_task` in mcp_tools_full.py, distinguished by their error
strings. -/
inductive StoreErr
  | notFound (task_id : Nat)
  | unauthorized
deriving DecidableEq, Repr

/-- The `error` string each failure kind carries
(mcp_tools_full.py lines 239 and 245). -/
def errText : StoreErr → List Char
  | .notFound task_id =>
      "Task with ID ".data ++ (toString task_id).data ++ " not found".data
  | .unauthorized => "Unauthorized: Task does not belong to user".data

/-- `TaskManager.add_task` (mcp_tools_full.py lines 120-163): creates
the row unconditionally — the source performs NO validation of `title` —
and returns the persisted record.  The only failure path in the source
is a backing-store exception, which is outside this model. -/
def add_task (st : StoreState) (user_id title : String)
    (description : Option String) (now : Nat) : Task × StoreState :=
  let t : Task :=
    ⟨st.nextId, user_id, title, description, false, now, now⟩
  (t, ⟨st.tasks ++ [t], st.nextId + 1⟩)

/-- `TaskManager.list_tasks` (mcp_tools_full.py lines 165-218): the
rows owned by `user_id`, filtered by status, in table order. -/
def list_tasks (st : StoreState) (user_id : String) (status : String) :
    List Task :=
  let mine := st.tasks.filter (fun t => t.user_id == user_id)
  if status == "pending" then mine.filter (fun t => !t.completed)
  else if status == "completed" then mine.filter (fun t => t.completed)
  else mine

/-- Replace the row with primary key `task_id` by `t'` (the in-place
row mutation the session commits). -/
def replaceById (tasks : List Task) (task_id : Nat) (t' : Task) :
    List Task :=
  tasks.map (fun u => if u.id == task_id then t' else u)

/-- `TaskManager.complete_task` (mcp_tools_full.py lines 220-272):
not-found check, then ownership check, then sets `completed := true`
and refreshes `updated_at`; returns the refreshed record. -/
def complete_task (st : StoreState) (user_id : String) (task_id : Nat)
    (now : Nat) : Except StoreErr Task × StoreState :=
  match findTask st task_id with
  | none => (.error (.notFound task_id), st)
  | some t =>
    if t.user_id ≠ user_id then (.error .unauthorized, st)
    else
      let t' := { t with completed := true, updated_at := now }
      (.ok t', ⟨replaceById st.tasks task_id t', st.nextId⟩)

/-- `TaskManager.update_task` (mcp_tools_full.py lines 323-380): same
checks, then overwrites exactly the supplied fields and refreshes
`updated_at`; returns the refreshed record. -/
def update_task (st : StoreState) (user_id : String) (task_id : Nat)
    (title : Option String) (description : Option String) (now : Nat) :
    Except StoreErr Task × StoreState :=
  match findTask st task_id with
  | none => (.error (.notFound task_id), st)
  | some t =>
    if t.user_id ≠ user_id then (.error .unauthorized, st)
    else
      let t' := { t with
                  title := title.getD t.title,
                  description := description.elim t.description some,
                  updated_at := now }
      (.ok t', ⟨replaceById st.tasks task_id t', st.nextId⟩)

/-- `TaskManager.delete_task` (mcp_tools_full.py lines 274-321): same
checks, then removes the row with that primary key; hard delete. -/
def delete_task (st : StoreState) (user_id : String) (task_id : Nat) :
    Except StoreErr Unit × StoreState :=
  match findTask st task_id with
  | none => (.error (.notFound task_id), st)
  | some t =>
    if t.user_id ≠ user_id then (.error .unauthorized, st)
    else
      (.ok (), ⟨st.tasks.filter (fun u => u.id ≠ task_id), st.nextId⟩)

/-- Did the operation succeed (`success=True` in the response model)? -/
def opOk {α : Type} : Except StoreErr α → Bool
  | .ok _ => true
  | .error _ => false

/-- One abstract Task Store invocation, for reasoning about arbitrary
sequences of subsequent operations. -/
inductive Op
  | addO (user_id title : String) (description : Option String)
  | completeO (user_id : String) (task_id : Nat)
  | updateO (user_id : String) (task_id : Nat)
      (title description : Option String)
  | deleteO (user_id : String) (task_id : Nat)
  | listO (user_id status : String)
deriving DecidableEq, Repr

/-- State transition of one store operation at instant `now`. -/
def applyOp (op : Op) (now : Nat) (st : StoreState) : StoreState :=
  match op with
  | .addO u ttl d => (add_task st u ttl d now).2
  | .completeO u i => (complete_task st u i now).2
  | .updateO u i ttl d => (update_task st u i ttl d now).2
  | .deleteO u i => (delete_task st u i).2
  | .listO _ _ => st

/-- State after a sequence of timed store operations. -/
def applyOps : List (Op × Nat) → StoreState → StoreState
  | [], st => st
  | (op, now) :: rest, st => applyOps rest (applyOp op now st)

/-- A tool executor in which every Task Store operation fails (the
failed-operation result the store returns instead of raising). -/
def failExec : ToolCall → StoreState → Except StoreErr Unit × StoreState :=
  fun _ s => (.error (.notFound 1), s)

/-- A tool executor in which every Task Store operation succeeds. -/
def okExec : ToolCall → StoreState → Except StoreErr Unit × StoreState :=
  fun _ s => (.ok (), s)

/-- Store well-formedness: every row's id is below the allocator and
the ids are pairwise distinct (primary-key uniqueness). -/
def Wf (st : StoreState) : Prop :=
  (∀ t ∈ st.tasks, t.id < st.nextId) ∧ (st.tasks.map Task.id).Nodup

instance (st : StoreState) : Decidable (Wf st) :=
  decidable_of_iff
    ((∀ t ∈ st.tasks, t.id < st.nextId) ∧ (st.tasks.map Task.id).Nodup)
    Iff.rfl

/-- `task_id` is gone for good: no row carries it and the allocator is
already past it. -/
def idGone (task_id : Nat) (st : StoreState) : Prop :=
  (∀ t ∈ st.tasks, t.id ≠ task_id) ∧ task_id < st.nextId

/-! ## Helper lemmas -/

/-- The tool-call list produced by `run_agent`, by classified intent. -/
theorem runAgent_calls (uid msg : List Char) :
    (runAgent uid msg).2 =
      match classifyIntent msg with
      | .addTask => [.addTaskC uid (addDesc msg)]
      | .listTasks => [.listTasksC uid]
      | .completeTask => [.completeTaskC uid 1]
      | .updateTask => [.updateTaskC uid 1]
      | .deleteTask => [.deleteTaskC uid 1]
      | .unknown => [] := by
  simp only [runAgent, classifyIntent]
  split_ifs <;> rfl

/-- A successful find yields a member row whose id is the key. -/
theorem findTask_some_elim {st : StoreState} {i : Nat} {t : Task}
    (h : findTask st i = some t) : t ∈ st.tasks ∧ t.id = i := by
  refine ⟨List.mem_of_find?_eq_some h, ?_⟩
  have := List.find?_some h
  simpa using this

/-- A key carried by no row is not found. -/
theorem findTask_none_intro {st : StoreState} {i : Nat}
    (h : ∀ t ∈ st.tasks, t.id ≠ i) : findTask st i = none := by
  rw [findTask, List.find?_eq_none]
  intro t ht
  simpa using h t ht

/-- Replacing the row with key `j` leaves the id column unchanged. -/
theorem mapId_replaceById (l : List Task) (j : Nat) (t' : Task)
    (ht : t'.id = j) :
    (replaceById l j t').map Task.id = l.map Task.id := by
  induction l with
  | nil => rfl
  | cons a l ih =>
    simp only [replaceById, List.map_cons] at ih ⊢
    by_cases hb : (a.id == j) = true
    · have ha : a.id = j := by simpa using hb
      rw [if_pos hb, ih, ht, ha]
    · rw [if_neg hb, ih]

/-- After replacing the row with key `j` (the replacement keeping that
key), the find returns the replacement. -/
theorem find_replaceById {l : List Task} {j : Nat} {t : Task} (t' : Task)
    (h : l.find? (fun u => u.id == j) = some t) (ht : t'.id = j) :
    (replaceById l j t').find? (fun u => u.id == j) = some t' := by
  induction l with
  | nil => simp at h
  | cons a l ih =>
    simp only [replaceById, List.map_cons]
    by_cases hb : (a.id == j) = true
    · rw [if_pos hb]
      have hb' : (t'.id == j) = true := by simpa using ht
      exact List.find?_cons_of_pos _ hb'
    · rw [if_neg hb]
      rw [@List.find?_cons_of_neg Task (fun u => u.id == j) a _ hb] at h
      rw [@List.find?_cons_of_neg Task (fun u => u.id == j) a _ hb]
      have := ih h
      simpa [replaceById] using this

/-- Success inversion for `complete_task`. -/
theorem complete_ok_inv {st : StoreState} {u : String} {i : Nat}
    {now : Nat} {t₁ : Task}
    (h : (complete_task st u i now).1 = .ok t₁) :
    ∃ t, findTask st i = some t ∧ t.id = i ∧ t.user_id = u ∧
      t₁ = { t with completed := true, updated_at := now } ∧
      (complete_task st u i now).2
        = ⟨replaceById st.tasks i t₁, st.nextId⟩ := by
  rcases hft : findTask st i with _ | t
  · simp [complete_task, hft] at h
  · by_cases hu : t.user_id = u
    · have hne : ¬ t.user_id ≠ u := by simpa using hu
      simp [complete_task, hft, hne] at h
      exact ⟨t, rfl, (findTask_some_elim hft).2, hu, h.symm,
        by simp [complete_task, hft, hne, h]⟩
    · simp [complete_task, hft, hu] at h

/-- Success inversion for `update_task`. -/
theorem update_ok_inv {st : StoreState} {u : String} {i : Nat}
    {ttl descr : Option String} {now : Nat} {t₁ : Task}
    (h : (update_task st u i ttl descr now).1 = .ok t₁) :
    ∃ t, findTask st i = some t ∧ t.id = i ∧ t.user_id = u ∧
      t₁ = { t with
             title := ttl.getD t.title,
             description := descr.elim t.description some,
             updated_at := now } ∧
      (update_task st u i ttl descr now).2
        = ⟨replaceById st.tasks i t₁, st.nextId⟩ := by
  rcases hft : findTask st i with _ | t
  · simp [update_task, hft] at h
  · by_cases hu : t.user_id = u
    · have hne : ¬ t.user_id ≠ u := by simpa using hu
      simp [update_task, hft, hne] at h
      exact ⟨t, rfl, (findTask_some_elim hft).2, hu, h.symm,
        by simp [update_task, hft, hne, h]⟩
    · simp [update_task, hft, hu] at h

/-- Success inversion for `delete_task`. -/
theorem delete_ok_inv {st : StoreState} {u : String} {i : Nat}
    (h : opOk (delete_task st u i).1 = true) :
    ∃ t, findTask st i = some t ∧ t.id = i ∧ t.user_id = u ∧
      (delete_task st u i).2
        = ⟨st.tasks.filter (fun v => v.id ≠ i), st.nextId⟩ := by
  rcases hft : findTask st i with _ | t
  · simp [delete_task, hft, opOk] at h
  · by_cases hu : t.user_id = u
    · have hne : ¬ t.user_id ≠ u := by simpa using hu
      exact ⟨t, rfl, (findTask_some_elim hft).2, hu,
        by simp [delete_task, hft, hne]⟩
    · simp [delete_task, hft, hu, opOk] at h

/-- Replacing the row with key `j` changes no id: every member's id was
already the id of some original row. -/
theorem id_mem_of_mem_replaceById {l : List Task} {j : Nat} {t' : Task}
    (ht : t'.id = j) {x : Task} (hx : x ∈ replaceById l j t') :
    ∃ v ∈ l, x.id = v.id := by
  have hm : x.id ∈ (replaceById l j t').map Task.id :=
    List.mem_map_of_mem _ hx
  rw [mapId_replaceById l j t' ht] at hm
  obtain ⟨v, hv, hvx⟩ := List.mem_map.mp hm
  exact ⟨v, hv, hvx.symm⟩

/-- `idGone` survives an in-place row replacement. -/
theorem idGone_replace {st : StoreState} {i j : Nat} {t' : Task}
    (ht : t'.id = j) (h : idGone i st) :
    idGone i (⟨replaceById st.tasks j t', st.nextId⟩ : StoreState) := by
  refine ⟨fun x hx => ?_, h.2⟩
  obtain ⟨v, hv, hxv⟩ := id_mem_of_mem_replaceById ht hx
  rw [hxv]
  exact h.1 v hv

/-- `Wf` survives an in-place row replacement. -/
theorem wf_replace {st : StoreState} {j : Nat} {t' : Task}
    (ht : t'.id = j) (h : Wf st) :
    Wf (⟨replaceById st.tasks j t', st.nextId⟩ : StoreState) := by
  constructor
  · intro x hx
    obtain ⟨v, hv, hxv⟩ := id_mem_of_mem_replaceById ht hx
    rw [hxv]
    exact h.1 v hv
  · show ((replaceById st.tasks j t').map Task.id).Nodup
    rw [mapId_replaceById st.tasks j t' ht]
    exact h.2

/-- Every store operation leaves a vanished id vanished: no operation
can ever reintroduce a row with an id below the allocator. -/
theorem idGone_applyOp {i : Nat} (op : Op) (now : Nat) (st : StoreState)
    (h : idGone i st) : idGone i (applyOp op now st) := by
  obtain ⟨h1, h2⟩ := h
  cases op with
  | addO u ttl d =>
    constructor
    · intro x hx
      simp only [applyOp, add_task, List.mem_append, List.mem_singleton] at hx
      rcases hx with hx | hx
      · exact h1 x hx
      · rw [hx]
        exact Nat.ne_of_gt h2
    · simp only [applyOp, add_task]
      omega
  | completeO u j =>
    rcases hft : findTask st j with _ | t
    · simpa [applyOp, complete_task, hft] using And.intro h1 h2
    · by_cases hu : t.user_id ≠ u
      · simpa [applyOp, complete_task, hft, hu] using And.intro h1 h2
      · have hid : t.id = j := (findTask_some_elim hft).2
        have heq : (complete_task st u j now).2
            = ⟨replaceById st.tasks j
                { t with completed := true, updated_at := now },
               st.nextId⟩ := by
          simp [complete_task, hft, hu]
        rw [show applyOp (.completeO u j) now st
              = (complete_task st u j now).2 from rfl, heq]
        exact idGone_replace
          (show ({ t with completed := true, updated_at := now } : Task).id
              = j from hid) ⟨h1, h2⟩
  | updateO u j ttl d =>
    rcases hft : findTask st j with _ | t
    · simpa [applyOp, update_task, hft] using And.intro h1 h2
    · by_cases hu : t.user_id ≠ u
      · simpa [applyOp, update_task, hft, hu] using And.intro h1 h2
      · have hid : t.id = j := (findTask_some_elim hft).2
        have heq : (update_task st u j ttl d now).2
            = ⟨replaceById st.tasks j
                { t with title := ttl.getD t.title,
                         description := d.elim t.description some,
                         updated_at := now },
               st.nextId⟩ := by
          simp [update_task, hft, hu]
        rw [show applyOp (.updateO u j ttl d) now st
              = (update_task st u j ttl d now).2 from rfl, heq]
        exact idGone_replace
          (show ({ t with title := ttl.getD t.title,
                          description := d.elim t.description some,
                          updated_at := now } : Task).id = j from hid)
          ⟨h1, h2⟩
  | deleteO u j =>
    rcases hft : findTask st j with _ | t
    · simpa [applyOp, delete_task, hft] using And.intro h1 h2
    · by_cases hu : t.user_id ≠ u
      · simpa [applyOp, delete_task, hft, hu] using And.intro h1 h2
      · have heq : (delete_task st u j).2
            = ⟨st.tasks.filter (fun v => v.id ≠ j), st.nextId⟩ := by
          simp [delete_task, hft, hu]
        rw [show applyOp (.deleteO u j) now st
              = (delete_task st u j).2 from rfl, heq]
        exact ⟨fun x hx => h1 x (List.mem_filter.mp hx).1, h2⟩
  | listO u s => exact ⟨h1, h2⟩

/-- A vanished id stays vanished along any sequence of operations. -/
theorem idGone_applyOps {i : Nat} (ops : List (Op × Nat))
    (st : StoreState) (h : idGone i st) : idGone i (applyOps ops st) := by
  induction ops generalizing st with
  | nil => exact h
  | cons p rest ih =>
    exact ih (applyOp p.1 p.2 st) (idGone_applyOp p.1 p.2 st h)

/-- Every store operation preserves well-formedness: ids stay below the
allocator and pairwise distinct. -/
theorem wf_applyOp (op : Op) (now : Nat) (st : StoreState)
    (h : Wf st) : Wf (applyOp op now st) := by
  obtain ⟨h1, h2⟩ := h
  cases op with
  | addO u ttl d =>
    constructor
    · intro x hx
      simp only [applyOp, add_task, List.mem_append, List.mem_singleton] at hx
      rcases hx with hx | hx
      · exact Nat.lt_succ_of_lt (h1 x hx)
      · rw [hx]
        exact Nat.lt_succ_self _
    · show ((st.tasks ++ [_]).map Task.id).Nodup
      rw [List.map_append]
      rw [List.nodup_append]
      refine ⟨h2, List.nodup_singleton _, ?_⟩
      intro a ha hb
      simp only [List.map_cons, List.map_nil, List.mem_singleton] at hb
      obtain ⟨v, hv, hva⟩ := List.mem_map.mp ha
      have := h1 v hv
      omega
  | completeO u j =>
    rcases hft : findTask st j with _ | t
    · simpa [applyOp, complete_task, hft] using And.intro h1 h2
    · by_cases hu : t.user_id ≠ u
      · simpa [applyOp, complete_task, hft, hu] using And.intro h1 h2
      · have hid : t.id = j := (findTask_some_elim hft).2
        have heq : (complete_task st u j now).2
            = ⟨replaceById st.tasks j
                { t with completed := true, updated_at := now },
               st.nextId⟩ := by
          simp [complete_task, hft, hu]
        rw [show applyOp (.completeO u j) now st
              = (complete_task st u j now).2 from rfl, heq]
        exact wf_replace
          (show ({ t with completed := true, updated_at := now } : Task).id
              = j from hid) ⟨h1, h2⟩
  | updateO u j ttl d =>
    rcases hft : findTask st j with _ | t
    · simpa [applyOp, update_task, hft] using And.intro h1 h2
    · by_cases hu : t.user_id ≠ u
      · simpa [applyOp, update_task, hft, hu] using And.intro h1 h2
      · have hid : t.id = j := (findTask_some_elim hft).2
        have heq : (update_task st u j ttl d now).2
            = ⟨replaceById st.tasks j
                { t with title := ttl.getD t.title,
                         description := d.elim t.description some,
                         updated_at := now },
               st.nextId⟩ := by
          simp [update_task, hft, hu]
        rw [show applyOp (.updateO u j ttl d) now st
              = (update_task st u j ttl d now).2 from rfl, heq]
        exact wf_replace
          (show ({ t with title := ttl.getD t.title,
                          description := d.elim t.description some,
                          updated_at := now } : Task).id = j from hid)
          ⟨h1, h2⟩
  | deleteO u j =>
    rcases hft : findTask st j with _ | t
    · simpa [applyOp, delete_task, hft] using And.intro h1 h2
    · by_cases hu : t.user_id ≠ u
      · simpa [applyOp, delete_task, hft, hu] using And.intro h1 h2
      · have heq : (delete_task st u j).2
            = ⟨st.tasks.filter (fun v => v.id ≠ j), st.nextId⟩ := by
          simp [delete_task, hft, hu]
        rw [show applyOp (.deleteO u j) now st
              = (delete_task st u j).2 from rfl, heq]
        refine ⟨fun x hx => h1 x (List.mem_filter.mp hx).1, ?_⟩
        show ((st.tasks.filter _).map Task.id).Nodup
        exact List.Nodup.sublist
          (List.Sublist.map Task.id (List.filter_sublist st.tasks)) h2
  | listO u s => exact ⟨h1, h2⟩

/-- No store operation ever decreases the id allocator. -/
theorem nextId_le_applyOp (op : Op) (now : Nat) (st : StoreState) :
    st.nextId ≤ (applyOp op now st).nextId := by
  cases op with
  | addO u ttl d => simp [applyOp, add_task]
  | completeO u j =>
    rcases hft : findTask st j with _ | t
    · simp [applyOp, complete_task, hft]
    · by_cases hu : t.user_id ≠ u <;>
        simp [applyOp, complete_task, hft, hu]
  | updateO u j ttl d =>
    rcases hft : findTask st j with _ | t
    · simp [applyOp, update_task, hft]
    · by_cases hu : t.user_id ≠ u <;>
        simp [applyOp, update_task, hft, hu]
  | deleteO u j =>
    rcases hft : findTask st j with _ | t
    · simp [applyOp, delete_task, hft]
    · by_cases hu : t.user_id ≠ u <;>
        simp [applyOp, delete_task, hft, hu]
  | listO u s => exact Nat.le_refl _

/-- The id allocator never decreases along a sequence of operations. -/
theorem nextId_le_applyOps (ops : List (Op × Nat)) (st : StoreState) :
    st.nextId ≤ (applyOps ops st).nextId := by
  induction ops generalizing st with
  | nil => exact Nat.le_refl _
  | cons p rest ih =>
    exact Nat.le_trans (nextId_le_applyOp p.1 p.2 st)
      (ih (applyOp p.1 p.2 st))

/-- On a missing id, `complete_task` reports NotFound. -/
theorem complete_notFound {st : StoreState} {uid : String} {tid : Nat}
    (now : Nat) (h : findTask st tid = none) :
    (complete_task st uid tid now).1 = .error (.notFound tid) := by
  simp [complete_task, h]

/-- On a missing id, `update_task` reports NotFound. -/
theorem update_notFound {st : StoreState} {uid : String} {tid : Nat}
    (ttl d : Option String) (now : Nat) (h : findTask st tid = none) :
    (update_task st uid tid ttl d now).1 = .error (.notFound tid) := by
  simp [update_task, h]

/-- On a missing id, `delete_task` reports NotFound. -/
theorem delete_notFound {st : StoreState} {uid : String} {tid : Nat}
    (h : findTask st tid = none) :
    (delete_task st uid tid).1 = .error (.notFound tid) := by
  simp [delete_task, h]

/-- Shape of a `complete_task` call that finds an owned row. -/
theorem complete_ok_of_found (now : Nat) {st : StoreState} {uid : String}
    {tid : Nat} {t : Task}
    (hft : findTask st tid = some t) (hu : t.user_id = uid) :
    complete_task st uid tid now
      = (.ok { t with completed := true, updated_at := now },
         ⟨replaceById st.tasks tid
            { t with completed := true, updated_at := now },
          st.nextId⟩) := by
  have hne : ¬ t.user_id ≠ uid := by simpa using hu
  simp [complete_task, hft, hne]

/-- Every member of a `list_tasks` result is a row of the store. -/
theorem mem_of_mem_list_tasks {st : StoreState} {u s : String} {x : Task}
    (hx : x ∈ list_tasks st u s) : x ∈ st.tasks := by
  simp only [list_tasks] at hx
  split_ifs at hx
  · exact (List.mem_filter.mp (List.mem_filter.mp hx).1).1
  · exact (List.mem_filter.mp (List.mem_filter.mp hx).1).1
  · exact (List.mem_filter.mp hx).1

/-! ## Claims -/

/-- C1, counterexample: on the message "Add a task to buy groceries" the
extracted description is NOT "to buy groceries" — the source strips the
keyword literals case-sensitively from the original message, so only the
lowercase occurrence "task" is removed and the result is
"Add a  to buy groceries". -/
theorem c1_counterexample :
    (runAgent "u7".data "Add a task to buy groceries".data).2
      = [ToolCall.addTaskC "u7".data "Add a  to buy groceries".data]
    ∧ "Add a  to buy groceries".data ≠ "to buy groceries".data := by
  exact ⟨by decide, by decide⟩

/-- C1, amended: for the input message "Add a task to buy groceries",
classify returns intent=AddTask with extracted description exactly
"Add a  to buy groceries"; the description is the ORIGINAL message with
the literal substrings "add", "create", "task" stripped CASE-SENSITIVELY
(the lowercased copy is used only for keyword detection) and surrounding
whitespace trimmed, with the placeholder "a new task" substituted when
the result is empty. -/
theorem c1_addTask_extraction :
    (runAgent "u7".data "Add a task to buy groceries".data
      = ("I've added the task 'Add a  to buy groceries' to your list.".data,
         [ToolCall.addTaskC "u7".data "Add a  to buy groceries".data]))
    ∧ addDesc "add".data = "a new task".data
    ∧ ∀ uid msg, classifyIntent msg = Intent.addTask →
        (runAgent uid msg).2 = [ToolCall.addTaskC uid (addDesc msg)] := by
  refine ⟨by decide, by decide, ?_⟩
  intro uid msg h
  rw [runAgent_calls, h]

/-- C1, witness: the amended extraction rule applied at the concrete
message "create report". -/
theorem c1_addTask_extraction_witness :
    (runAgent "u9".data "create report".data).2
      = [ToolCall.addTaskC "u9".data (addDesc "create report".data)] :=
  c1_addTask_extraction.2.2 "u9".data "create report".data (by decide)

/-- C2, counterexample: classify("complete task 5") yields taskId 1, not
5 — the source hardcodes `task_id: 1` and extracts no integer token. -/
theorem c2_counterexample :
    (runAgent "u1".data "complete task 5".data).2
      = [ToolCall.completeTaskC "u1".data 1]
    ∧ (1 : Nat) ≠ 5 := by
  exact ⟨by decide, by decide⟩

/-- C2, amended: for every message classified as CompleteTask the
extracted taskId is the constant 1, regardless of any integer tokens in
the message. -/
theorem c2_taskId_constant :
    ∀ uid msg, classifyIntent msg = Intent.completeTask →
      (runAgent uid msg).2 = [ToolCall.completeTaskC uid 1] := by
  intro uid msg h
  rw [runAgent_calls, h]

/-- C2, witness: the constant taskId at the concrete message "done 7". -/
theorem c2_taskId_constant_witness :
    (runAgent "u2".data "done 7".data).2
      = [ToolCall.completeTaskC "u2".data 1] :=
  c2_taskId_constant "u2".data "done 7".data (by decide)

/-- C3, counterexample: with a failing Task Store operation, the chat
dispatcher still answers with the canned success text — byte-identical
to the response under a succeeding store, hence not error-describing —
although both conversation turns are indeed recorded. -/
theorem c3_counterexample :
    ((chatEndpoint failExec "u1".data "add buy milk".data [] store0).1.1
        = "I've added the task 'buy milk' to your list.".data)
    ∧ ((chatEndpoint failExec "u1".data "add buy milk".data [] store0).1.1
        = (chatEndpoint okExec "u1".data "add buy milk".data [] store0).1.1)
    ∧ ((chatEndpoint failExec "u1".data "add buy milk".data [] store0).2.1
        = [⟨"u1".data, Role.user, "add buy milk".data⟩,
           ⟨"u1".data, Role.assistant,
            "I've added the task 'buy milk' to your list.".data⟩]) := by
  exact ⟨by decide, by decide, by decide⟩

/-- C3, amended: the dispatcher never raises a Task Store failure to its
caller and records both conversation turns for every message; but its
response text is the intent's canned text computed BEFORE tool
execution, independent of the operations' outcomes (the tool results
are discarded), so a failure is not described in the response. -/
theorem c3_dispatcher_behavior :
    ∀ {σ σ' ρ ρ' : Type}
      (exec : ToolCall → σ → ρ × σ) (exec' : ToolCall → σ' → ρ' × σ')
      (uid msg : List Char) (turns : List Turn) (s : σ) (s' : σ'),
      (chatEndpoint exec uid msg turns s).1.1 = (runAgent uid msg).1
      ∧ (chatEndpoint exec uid msg turns s).1.1
          = (chatEndpoint exec' uid msg turns s').1.1
      ∧ (chatEndpoint exec uid msg turns s).2.1
          = turns ++ [⟨uid, Role.user, msg⟩,
                      ⟨uid, Role.assistant, (runAgent uid msg).1⟩] := by
  intro σ σ' ρ ρ' exec exec' uid msg turns s s'
  refine ⟨rfl, rfl, ?_⟩
  simp [chatEndpoint]

/-- C4, counterexample: `add_task` with a title that is empty (hence
empty after trimming) succeeds and creates the task — the source
performs no ValidationError check. -/
theorem c4_counterexample :
    ((add_task store0 "u1" "" none 0).2).tasks.map Task.title = [""]
    ∧ ((add_task store0 "u1" "" none 0).2).tasks.length = 1
    ∧ (add_task store0 "u1" "" none 0).1.title = "" := by
  exact ⟨rfl, rfl, rfl⟩

/-- C4, amended: `add_task` performs no title validation at all: for
every owner and every title, including one empty after trimming, the
operation succeeds, appending exactly one new uncompleted task carrying
that exact title. -/
theorem c4_no_validation :
    ∀ (st : StoreState) (uid ttl : String) (d : Option String) (now : Nat),
      ((add_task st uid ttl d now).2).tasks
          = st.tasks ++ [(add_task st uid ttl d now).1]
      ∧ (add_task st uid ttl d now).1.title = ttl
      ∧ (add_task st uid ttl d now).1.user_id = uid
      ∧ (add_task st uid ttl d now).1.completed = false := by
  intro st uid ttl d now
  exact ⟨rfl, rfl, rfl, rfl⟩

/-- C5, confirmed: `complete_task`, `update_task` and `delete_task`
return the NotFound failure when no row carries the id, the
Unauthorized failure when the row exists but is owned by someone else,
and the two failure kinds (and their error messages) are never
conflated. -/
theorem c5_distinct_failures :
    ∀ (st : StoreState) (uid : String) (tid : Nat) (now : Nat)
      (ttl d : Option String),
      (findTask st tid = none →
        (complete_task st uid tid now).1 = .error (.notFound tid)
        ∧ (update_task st uid tid ttl d now).1 = .error (.notFound tid)
        ∧ (delete_task st uid tid).1 = .error (.notFound tid))
      ∧ (∀ t, findTask st tid = some t → t.user_id ≠ uid →
        (complete_task st uid tid now).1 = .error .unauthorized
        ∧ (update_task st uid tid ttl d now).1 = .error .unauthorized
        ∧ (delete_task st uid tid).1 = .error .unauthorized)
      ∧ (∀ n, StoreErr.notFound n ≠ StoreErr.unauthorized
          ∧ errText (.notFound n) ≠ errText .unauthorized) := by
  intro st uid tid now ttl d
  refine ⟨?_, ?_, ?_⟩
  · intro h
    exact ⟨by simp [complete_task, h], by simp [update_task, h],
      by simp [delete_task, h]⟩
  · intro t h hu
    exact ⟨by simp [complete_task, h, hu], by simp [update_task, h, hu],
      by simp [delete_task, h, hu]⟩
  · intro n
    refine ⟨by simp, ?_⟩
    intro h
    have h1 : (errText (.notFound n)).head? = some 'T' := rfl
    rw [h] at h1
    exact absurd h1 (by decide)

/-- C5, witness: the two failure kinds at concrete inputs — a missing
id versus another owner's task. -/
theorem c5_distinct_failures_witness :
    (complete_task ⟨[⟨1, "alice", "t", none, false, 0, 0⟩], 2⟩
        "alice" 7 3).1 = .error (.notFound 7)
    ∧ (complete_task ⟨[⟨1, "alice", "t", none, false, 0, 0⟩], 2⟩
        "bob" 1 3).1 = .error .unauthorized
    ∧ StoreErr.notFound 7 ≠ StoreErr.unauthorized
    ∧ errText (.notFound 7) ≠ errText .unauthorized :=
  ⟨((c5_distinct_failures ⟨[⟨1, "alice", "t", none, false, 0, 0⟩], 2⟩
      "alice" 7 3 none none).1 (by decide)).1,
   ((c5_distinct_failures ⟨[⟨1, "alice", "t", none, false, 0, 0⟩], 2⟩
      "bob" 1 3 none none).2.1 ⟨1, "alice", "t", none, false, 0, 0⟩
      (by decide) (by decide)).1,
   ((c5_distinct_failures ⟨[], 1⟩ "x" 0 0 none none).2.2 7).1,
   ((c5_distinct_failures ⟨[], 1⟩ "x" 0 0 none none).2.2 7).2⟩

/-- C6, confirmed: per processed message, the dispatcher performs
exactly one Task Store operation when the classified intent is one of
the five task intents, zero when it is Unknown, and never more than
one. -/
theorem c6_one_op_per_message :
    ∀ uid msg,
      (classifyIntent msg = Intent.unknown →
        opsInvoked (runAgent uid msg).2 = 0)
      ∧ (classifyIntent msg ≠ Intent.unknown →
        opsInvoked (runAgent uid msg).2 = 1)
      ∧ opsInvoked (runAgent uid msg).2 ≤ 1 := by
  intro uid msg
  rw [runAgent_calls]
  cases h : classifyIntent msg <;>
    simp [opsInvoked, dispatchCount]

/-- C6, witness: zero operations for an Unknown message, one for a
Delete message. -/
theorem c6_one_op_per_message_witness :
    opsInvoked (runAgent "u3".data "hello there".data).2 = 0
    ∧ opsInvoked (runAgent "u3".data "delete it".data).2 = 1 :=
  ⟨(c6_one_op_per_message "u3".data "hello there".data).1 (by decide),
   (c6_one_op_per_message "u3".data "delete it".data).2.1 (by decide)⟩

/-- C7, confirmed: after a successful delete, no later listing (any
owner, any filter) ever contains the deleted id again, whatever
operations follow, and any later complete, update or delete addressed
to that id returns the NotFound failure. -/
theorem c7_delete_permanent :
    ∀ (st : StoreState) (uid : String) (tid : Nat),
      Wf st →
      opOk (delete_task st uid tid).1 = true →
      ∀ (ops : List (Op × Nat)) (uid' status : String)
        (now : Nat) (ttl d : Option String),
        (∀ t ∈ list_tasks (applyOps ops (delete_task st uid tid).2)
            uid' status, t.id ≠ tid)
        ∧ (complete_task (applyOps ops (delete_task st uid tid).2)
            uid' tid now).1 = .error (.notFound tid)
        ∧ (update_task (applyOps ops (delete_task st uid tid).2)
            uid' tid ttl d now).1 = .error (.notFound tid)
        ∧ (delete_task (applyOps ops (delete_task st uid tid).2)
            uid' tid).1 = .error (.notFound tid) := by
  intro st uid tid hwf hok ops uid' status now ttl d
  obtain ⟨t, hft, hid, hu, hst1⟩ := delete_ok_inv hok
  have hgone1 : idGone tid (delete_task st uid tid).2 := by
    rw [hst1]
    refine ⟨?_, ?_⟩
    · intro x hx
      have hx' := List.mem_filter.mp hx
      simpa using hx'.2
    · show tid < st.nextId
      have := hwf.1 t (findTask_some_elim hft).1
      omega
  have hgone : idGone tid (applyOps ops (delete_task st uid tid).2) :=
    idGone_applyOps ops _ hgone1
  have hnone : findTask (applyOps ops (delete_task st uid tid).2) tid
      = none := findTask_none_intro hgone.1
  refine ⟨?_, complete_notFound now hnone, update_notFound ttl d now hnone,
    delete_notFound hnone⟩
  intro x hx
  exact hgone.1 x (mem_of_mem_list_tasks hx)

/-- C7, witness: delete task 1, then add another task; the listing no
longer carries id 1 and completing id 1 reports NotFound. -/
theorem c7_delete_permanent_witness :
    (∀ t ∈ list_tasks (applyOps [(Op.addO "alice" "s" none, 5)]
        (delete_task ⟨[⟨1, "alice", "t", none, false, 0, 0⟩], 2⟩
          "alice" 1).2) "alice" "all", t.id ≠ 1)
    ∧ (complete_task (applyOps [(Op.addO "alice" "s" none, 5)]
        (delete_task ⟨[⟨1, "alice", "t", none, false, 0, 0⟩], 2⟩
          "alice" 1).2) "alice" 1 9).1 = .error (.notFound 1) := by
  have h := c7_delete_permanent ⟨[⟨1, "alice", "t", none, false, 0, 0⟩], 2⟩
    "alice" 1 (by decide) (by decide)
    [(Op.addO "alice" "s" none, 5)] "alice" "all" 9 none none
  exact ⟨h.1, h.2.1⟩

/-- C8, confirmed: completing an owned task succeeds and leaves it
completed; a second complete on the already-completed task succeeds
again with no error, and the task is completed after both calls. -/
theorem c8_complete_idempotent :
    ∀ (st : StoreState) (uid : String) (tid : Nat) (now now' : Nat)
      (t₁ : Task),
      (complete_task st uid tid now).1 = .ok t₁ →
      opOk (complete_task (complete_task st uid tid now).2
          uid tid now').1 = true
      ∧ findTask (complete_task st uid tid now).2 tid = some t₁
      ∧ t₁.completed = true
      ∧ (∃ t₂, (complete_task (complete_task st uid tid now).2
            uid tid now').1 = .ok t₂
          ∧ t₂.completed = true
          ∧ findTask (complete_task (complete_task st uid tid now).2
              uid tid now').2 tid = some t₂) := by
  intro st uid tid now now' t₁ h
  obtain ⟨t, hft, hid, hu, ht₁, hst₁⟩ := complete_ok_inv h
  have hid₁ : t₁.id = tid := by rw [ht₁]; exact hid
  have hu₁ : t₁.user_id = uid := by rw [ht₁]; exact hu
  have hfind₁ : findTask (complete_task st uid tid now).2 tid = some t₁ := by
    rw [hst₁]
    exact find_replaceById t₁ hft hid₁
  have h2 := complete_ok_of_found now' hfind₁ hu₁
  have h2ok : (complete_task (complete_task st uid tid now).2
      uid tid now').1
        = .ok { t₁ with completed := true, updated_at := now' } := by
    rw [h2]
  have h2st : (complete_task (complete_task st uid tid now).2
      uid tid now').2
        = ⟨replaceById ((complete_task st uid tid now).2).tasks tid
            { t₁ with completed := true, updated_at := now' },
           ((complete_task st uid tid now).2).nextId⟩ := by
    rw [h2]
  refine ⟨by simp [h2ok, opOk], hfind₁, by rw [ht₁], ?_⟩
  refine ⟨{ t₁ with completed := true, updated_at := now' }, h2ok, rfl, ?_⟩
  rw [h2st]
  exact find_replaceById _ hfind₁ hid₁

/-- C8, witness: completing the same concrete task twice. -/
theorem c8_complete_idempotent_witness :
    opOk (complete_task (complete_task
        ⟨[⟨1, "alice", "t", none, false, 0, 0⟩], 2⟩ "alice" 1 4).2
        "alice" 1 5).1 = true
    ∧ (⟨1, "alice", "t", none, true, 0, 4⟩ : Task).completed = true := by
  have h := c8_complete_idempotent
    ⟨[⟨1, "alice", "t", none, false, 0, 0⟩], 2⟩ "alice" 1 4 5
    ⟨1, "alice", "t", none, true, 0, 4⟩ rfl
  exact ⟨h.1, h.2.2.1⟩

/-- C9, confirmed: a successful update changes only the supplied
fields — an absent title or description is left unchanged — and the
task's id, owner, completed flag and creation timestamp are unchanged
in every case; the stored row afterwards is the returned record. -/
theorem c9_update_frame :
    ∀ (st : StoreState) (uid : String) (tid : Nat)
      (ttl d : Option String) (now : Nat) (t t₁ : Task),
      findTask st tid = some t →
      (update_task st uid tid ttl d now).1 = .ok t₁ →
      t₁.id = t.id
      ∧ t₁.user_id = t.user_id
      ∧ t₁.completed = t.completed
      ∧ t₁.created_at = t.created_at
      ∧ (ttl = none → t₁.title = t.title)
      ∧ (d = none → t₁.description = t.description)
      ∧ findTask (update_task st uid tid ttl d now).2 tid = some t₁ := by
  intro st uid tid ttl d now t t₁ hft h
  obtain ⟨t', hft', hid', hu', ht₁, hst⟩ := update_ok_inv h
  rw [hft] at hft'
  injection hft' with he
  subst he
  have hid₁ : t₁.id = tid := by rw [ht₁]; exact hid'
  refine ⟨by rw [ht₁, hid'], by rw [ht₁], by rw [ht₁], by rw [ht₁],
    ?_, ?_, ?_⟩
  · intro hn
    rw [ht₁, hn]
    rfl
  · intro hn
    rw [ht₁, hn]
    rfl
  · rw [hst]
    exact find_replaceById t₁ hft hid₁

/-- C9, witness: updating only the description of a concrete task
leaves its title, owner, completed flag and creation time unchanged. -/
theorem c9_update_frame_witness :
    ((⟨1, "alice", "t", some "new", false, 0, 6⟩ : Task).id = 1
      ∧ (⟨1, "alice", "t", some "new", false, 0, 6⟩ : Task).user_id
          = "alice")
    ∧ (⟨1, "alice", "t", some "new", false, 0, 6⟩ : Task).title = "t" := by
  have h := c9_update_frame ⟨[⟨1, "alice", "t", none, false, 0, 0⟩], 2⟩
    "alice" 1 none (some "new") 6
    ⟨1, "alice", "t", none, false, 0, 0⟩
    ⟨1, "alice", "t", some "new", false, 0, 6⟩ (by decide) rfl
  exact ⟨⟨h.1, h.2.1⟩, h.2.2.2.2.1 rfl⟩

/-- C10, confirmed: task ids are store-wide unique (well-formedness —
bounded, pairwise-distinct ids — is preserved by every operation and a
fresh id is never one already present), and creations get strictly
increasing ids even across interleaved operations, deletions included,
so ids are never reused. -/
theorem c10_id_allocation :
    (∀ (st : StoreState) (op : Op) (now : Nat),
      Wf st → Wf (applyOp op now st))
    ∧ (∀ (st : StoreState) (uid ttl : String) (d : Option String)
        (now : Nat), Wf st →
        (add_task st uid ttl d now).1.id ∉ st.tasks.map Task.id)
    ∧ (∀ (st : StoreState) (uid uid' ttl ttl' : String)
        (d d' : Option String) (now now' : Nat) (ops : List (Op × Nat)),
        (add_task st uid ttl d now).1.id
          < (add_task (applyOps ops (add_task st uid ttl d now).2)
              uid' ttl' d' now').1.id) := by
  refine ⟨fun st op now h => wf_applyOp op now st h, ?_, ?_⟩
  · intro st uid ttl d now hwf hmem
    obtain ⟨v, hv, hvid⟩ := List.mem_map.mp hmem
    have hlt := hwf.1 v hv
    have hne : (add_task st uid ttl d now).1.id = st.nextId := rfl
    rw [hne] at hvid
    omega
  · intro st uid uid' ttl ttl' d d' now now' ops
    have h1 : (add_task st uid ttl d now).1.id = st.nextId := rfl
    have h2 : ((add_task st uid ttl d now).2).nextId = st.nextId + 1 := rfl
    have h3 := nextId_le_applyOps ops (add_task st uid ttl d now).2
    have h4 : (add_task (applyOps ops (add_task st uid ttl d now).2)
        uid' ttl' d' now').1.id
          = (applyOps ops (add_task st uid ttl d now).2).nextId := rfl
    omega

/-- C10, witness: from the empty store, adding keeps the store
well-formed and the fresh id is unused; two successive creations (with
a delete of the first in between) still get strictly increasing ids. -/
theorem c10_id_allocation_witness :
    Wf (applyOp (Op.addO "u" "t" none) 0 store0)
    ∧ (add_task store0 "u" "t" none 0).1.id ∉ store0.tasks.map Task.id
    ∧ (add_task store0 "u" "t" none 0).1.id
        < (add_task (applyOps [(Op.deleteO "u" 1, 2)]
            (add_task store0 "u" "t" none 0).2) "u" "s" none 3).1.id :=
  ⟨c10_id_allocation.1 store0 (Op.addO "u" "t" none) 0 (by decide),
   c10_id_allocation.2.1 store0 "u" "t" none 0 (by decide),
   c10_id_allocation.2.2 store0 "u" "u" "t" "s" none none 0 3
     [(Op.deleteO "u" 1, 2)]⟩

end Todo
